import Mathlib

/-!
Verification of the natural-language specification of the
`python_finance_tracking` repository (`pft.py`) against its code.

The domain model of `pft.py` (Account, Category, Transaction, Ledger,
Budget) and its SQLite storage layer (`SQLiteStorage`) are embedded
shallowly below:

* Python `decimal.Decimal` values reachable here are plain decimal
  numbers `coeff * 10 ^ (-exp)`; they are modelled by `Dec` together
  with `decToString` (the exact `str(Decimal)` rendering, including the
  scientific form used when the adjusted exponent is below -6) and
  `decOfString` (`Decimal(str)` construction, `none` standing for
  `InvalidOperation`).
* `datetime.date` is modelled by `PDate` with the calendar validity
  check (`date(year, month, day)` raising `ValueError` is `mkPDate`
  returning `none`).
* Falsiness checks (`if not x:`) on `None` / `0` / `Decimal(0)` / `''`
  arguments are translated explicitly at each use site.
* The SQLite tables created by `SQLiteStorage._setup_db` are lists of
  row structures; `lastrowid` of an `INSERT` into an
  `INTEGER PRIMARY KEY` table is `max id + 1`.

Exceptions are modelled by `Except PftError`; Python exceptions that are
not part of the domain taxonomy (`ValueError`, `TypeError`,
`InvalidOperation`, indexing a missing row) are collapsed into
`PftError.pyError`.
-/

/-- A decimal number `coeff * 10 ^ (-exp)`, the model of the
`decimal.Decimal` values reachable in `pft.py` (they are built from
integers and plain numeric strings, so the exponent is never
positive). -/
structure Dec where
  coeff : Int
  exp : Nat
deriving DecidableEq

/-- Python truthiness of a `Decimal`: zero is falsy. -/
def Dec.falsy (d : Dec) : Bool := d.coeff = 0

/-- `Decimal` addition: align exponents, add coefficients (exact, no
rounding at the precisions reachable here). -/
def Dec.add (a b : Dec) : Dec :=
  if a.exp ≤ b.exp then
    ⟨a.coeff * (10 : Int) ^ (b.exp - a.exp) + b.coeff, b.exp⟩
  else
    ⟨a.coeff + b.coeff * (10 : Int) ^ (a.exp - b.exp), a.exp⟩

/-- `abs` of a `Decimal`. -/
def Dec.abs (d : Dec) : Dec := ⟨|d.coeff|, d.exp⟩

/-- Numeric comparison of `Decimal`s (cross-multiplied). -/
def Dec.le (a b : Dec) : Bool :=
  a.coeff * (10 : Int) ^ b.exp ≤ b.coeff * (10 : Int) ^ a.exp

/-- The character of the decimal digit `n` (for `n < 10`). -/
def digitChar (n : Nat) : Char := Char.ofNat (48 + n)

/-- Decimal digit characters of `n`, most significant first; fuel-based
so that it is structurally recursive (the fuel `n + 1` always
suffices). -/
def natDigitsAux : Nat → Nat → List Char
  | 0, _ => []
  | fuel + 1, n =>
    if n < 10 then [digitChar n]
    else natDigitsAux fuel (n / 10) ++ [digitChar (n % 10)]

/-- Decimal digit characters of `n`, most significant first. -/
def natDigits (n : Nat) : List Char := natDigitsAux (n + 1) n

/-- The value of a digit character, `none` for a non-digit. -/
def digitVal (c : Char) : Option Nat :=
  if 48 ≤ c.toNat ∧ c.toNat ≤ 57 then some (c.toNat - 48) else none

/-- Read a run of digit characters left to right, accumulating the
value; `none` as soon as a non-digit appears. -/
def readDigitsAux : List Char → Nat → Option Nat
  | [], acc => some acc
  | c :: cs, acc =>
    match digitVal c with
    | some v => readDigitsAux cs (acc * 10 + v)
    | none => none

/-- The numeric value of a non-empty run of digit characters. -/
def readDigits (cs : List Char) : Option Nat :=
  if cs.isEmpty then none else readDigitsAux cs 0

/-- Left-pad a digit run with `'0'` to length at least `w`. -/
def padDigits (w : Nat) (cs : List Char) : List Char :=
  List.replicate (w - cs.length) '0' ++ cs

/-- The characters of `str(d)` for a `Decimal` of nonpositive exponent:
the plain form `intpart.fracpart` while the adjusted exponent is at
least `-6`, the scientific form `dE-k` / `d.ddE-k` below that (the
`decimal` module's to-scientific-string rules). -/
def decChars (d : Dec) : List Char :=
  let sign : List Char := if d.coeff < 0 then ['-'] else []
  let ds := natDigits d.coeff.natAbs
  if d.exp = 0 then
    sign ++ ds
  else if d.exp ≤ ds.length + 5 then
    let padded := padDigits (d.exp + 1) ds
    sign ++ padded.take (padded.length - d.exp) ++ '.' :: padded.drop (padded.length - d.exp)
  else
    let expDigits := natDigits (d.exp - (ds.length - 1))
    sign ++ ds.take 1 ++ (if ds.length = 1 then [] else '.' :: ds.drop 1) ++ 'E' :: '-' :: expDigits

/-- `str(d)` for a `Decimal` of nonpositive exponent. -/
def decToString (d : Dec) : String := String.mk (decChars d)

/-- Split a character list at the first occurrence of `sep`: the prefix
before it and, when `sep` occurs, the remainder after it. -/
def splitFirst (sep : Char) : List Char → List Char × Option (List Char)
  | [] => ([], none)
  | c :: cs =>
    if c = sep then ([], some cs)
    else
      let r := splitFirst sep cs
      (c :: r.1, r.2)

/-- Parse the digits of a decimal mantissa `intpart[.fracpart]`: the
coefficient digits and the length of the fractional part.  At least one
digit is required overall. -/
def parseMantissa (cs : List Char) : Option (Nat × Nat) :=
  let (ip, rest) := splitFirst '.' cs
  match rest with
  | none => (readDigits ip).map fun v => (v, 0)
  | some fp =>
    match readDigits (ip ++ fp) with
    | some v => if (ip ++ fp).isEmpty then none else some (v, fp.length)
    | none => none

/-- Parse an unsigned decimal numeric string `mantissa[E[±]digits]`,
yielding coefficient and (nonnegative) fractional exponent.  A
positive resulting exponent is outside the `Dec` model and yields
`none`. -/
def parseUnsignedDec (cs : List Char) : Option (Nat × Nat) :=
  let (mant, erest) := splitFirst 'E' cs
  match erest with
  | none => parseMantissa mant
  | some epart =>
    match epart with
    | '-' :: eds => do
      let (v, fl) ← parseMantissa mant
      let k ← readDigits eds
      pure (v, fl + k)
    | '+' :: eds => do
      let (v, fl) ← parseMantissa mant
      let k ← readDigits eds
      if k ≤ fl then pure (v, fl - k) else none
    | eds => do
      let (v, fl) ← parseMantissa mant
      let k ← readDigits eds
      if k ≤ fl then pure (v, fl - k) else none

/-- Parse a decimal numeric string with optional sign.  This is
`Decimal(str)`, restricted to the plain-number forms relevant here;
`none` is `InvalidOperation`. -/
def parseDecChars (cs : List Char) : Option Dec :=
  match cs with
  | '-' :: rest => (parseUnsignedDec rest).map fun p => ⟨-(p.1 : Int), p.2⟩
  | '+' :: rest => (parseUnsignedDec rest).map fun p => ⟨(p.1 : Int), p.2⟩
  | _ => (parseUnsignedDec cs).map fun p => ⟨(p.1 : Int), p.2⟩

/-- `Decimal(s)` for a string `s`. -/
def decOfString (s : String) : Option Dec := parseDecChars s.data

/-- A calendar date as carried by `datetime.date`. -/
structure PDate where
  year : Nat
  month : Nat
  day : Nat
deriving DecidableEq

/-- Gregorian leap year. -/
def isLeapYear (y : Nat) : Bool := y % 4 = 0 ∧ (y % 100 ≠ 0 ∨ y % 400 = 0)

/-- Days in a month of a year. -/
def daysInMonth (y m : Nat) : Nat :=
  if m = 2 then (if isLeapYear y then 29 else 28)
  else if m = 4 ∨ m = 6 ∨ m = 9 ∨ m = 11 then 30
  else 31

/-- The validity check performed by the `datetime.date` constructor
(`MINYEAR = 1`, `MAXYEAR = 9999`). -/
def isValidDate (d : PDate) : Bool :=
  1 ≤ d.year ∧ d.year ≤ 9999 ∧ 1 ≤ d.month ∧ d.month ≤ 12 ∧
    1 ≤ d.day ∧ d.day ≤ daysInMonth d.year d.month

/-- `date(year, month, day)`: `none` models the `ValueError` raised on
an out-of-range component (the arguments come from `int(...)` and so
may be any integers). -/
def mkPDate (y m d : Int) : Option PDate :=
  if 0 ≤ y ∧ 0 ≤ m ∧ 0 ≤ d then
    let p : PDate := ⟨y.toNat, m.toNat, d.toNat⟩
    if isValidDate p then some p else none
  else none

/-- `int(s)` on a string: an optional sign followed by digits (the
plain forms relevant here). -/
def intOfString (cs : List Char) : Option Int :=
  match cs with
  | '-' :: rest => (readDigits rest).map fun n => -(n : Int)
  | '+' :: rest => (readDigits rest).map fun n => (n : Int)
  | _ => (readDigits cs).map fun n => (n : Int)

/-- Split a character list at every occurrence of `sep`
(Python `str.split`). -/
def splitAll (sep : Char) : List Char → List (List Char)
  | [] => [[]]
  | c :: cs =>
    let r := splitAll sep cs
    if c = sep then [] :: r
    else
      match r with
      | [] => [[c]]
      | p :: ps => (c :: p) :: ps

/-- `d.strftime("%Y-%m-%d")`: zero-padded ISO rendering. -/
def dateChars (d : PDate) : List Char :=
  padDigits 4 (natDigits d.year) ++ '-' ::
    (padDigits 2 (natDigits d.month) ++ '-' :: padDigits 2 (natDigits d.day))

/-- `d.strftime("%Y-%m-%d")` as a string. -/
def dateToString (d : PDate) : String := String.mk (dateChars d)

/-- The error taxonomy of `pft.py`; `pyError` collapses Python
exceptions outside the domain taxonomy (`ValueError`, `TypeError`,
`InvalidOperation`, indexing errors). -/
inductive PftError where
  | invalidAccount (msg : String)
  | invalidTransaction (msg : String)
  | invalidLedger (msg : String)
  | budgetError (msg : String)
  | pyError (msg : String)
deriving DecidableEq

instance {ε α : Type} [DecidableEq ε] [DecidableEq α] : DecidableEq (Except ε α) := fun x y =>
  match x, y with
  | .error e, .error f =>
    if h : e = f then isTrue (by rw [h]) else isFalse fun hh => h (Except.error.inj hh)
  | .ok a, .ok b =>
    if h : a = b then isTrue (by rw [h]) else isFalse fun hh => h (Except.ok.inj hh)
  | .error _, .ok _ => isFalse fun hh => Except.noConfusion hh
  | .ok _, .error _ => isFalse fun hh => Except.noConfusion hh

/-- `Account` of `pft.py`: `id`, `name`, `starting_balance` (the
constructor's `_check_starting_balance` has normalized the balance to a
`Decimal`). -/
structure Account where
  id : Option Int
  name : Option String
  starting_balance : Dec
deriving DecidableEq

/-- `Category` of `pft.py`. -/
structure Category where
  name : Option String
  id : Option Int
deriving DecidableEq

/-- Python truthiness of an optional integer id (`None` and `0` are
falsy). -/
def optIntFalsy : Option Int → Bool
  | none => true
  | some n => n = 0

/-- The loosely-typed `amount` argument of `Transaction`: a `Decimal`,
an `int`, a string, `None`, or a value of any other type. -/
inductive AmountInput where
  | dec (d : Dec)
  | int (n : Int)
  | str (s : String)
  | noneVal
  | otherType
deriving DecidableEq

/-- Python truthiness of an `amount` argument. -/
def AmountInput.falsy : AmountInput → Bool
  | .dec d => d.falsy
  | .int n => n = 0
  | .str s => s.isEmpty
  | .noneVal => true
  | .otherType => false

/-- The loosely-typed `txn_date` argument of `Transaction`: a `date`, a
string, `None`, or a (truthy) value of any other type. -/
inductive DateInput where
  | date (d : PDate)
  | str (s : String)
  | noneVal
  | otherType
deriving DecidableEq

/-- Python truthiness of a `txn_date` argument. -/
def DateInput.falsy : DateInput → Bool
  | .date _ => false
  | .str s => s.isEmpty
  | .noneVal => true
  | .otherType => false

/-- An element of the `categories` argument of `Transaction`: a
`(Category, Decimal)` tuple or a bare `Category` (any other element is
silently ignored by `_check_categories`). -/
inductive CatInput where
  | pair (c : Category) (amount : Dec)
  | cat (c : Category)
deriving DecidableEq

/-- `Transaction` of `pft.py` after construction. -/
structure Transaction where
  account : Account
  amount : Dec
  txn_date : PDate
  txn_type : Option String
  categories : List (Category × Dec)
  payee : Option String
  description : Option String
  status : Option String
  id : Option Int
deriving DecidableEq

/-- `Transaction._check_account`: any provided account object is truthy,
so only `None` fails. -/
def Transaction.check_account (account : Option Account) : Except PftError Account :=
  match account with
  | none => .error (.invalidTransaction "transaction must belong to an account")
  | some a => .ok a

/-- The fractions-of-cents check at the end of
`Transaction._check_amount`: render `str(decimal_amount)`, and fail when
there is a `'.'` with more than two characters after it. -/
def Transaction.check_amount_decimals (d : Dec) : Except PftError Dec :=
  let r := splitFirst '.' (decChars d)
  match r.2 with
  | some decimals =>
    if decimals.length > 2 then
      .error (.invalidTransaction "no fractions of cents in a transaction")
    else .ok d
  | none => .ok d

/-- `Transaction._check_amount`: reject falsy amounts, normalize
`Decimal` / `int` / `str` to a `Decimal` (a malformed string is
`invalid amount`, another type is `invalid type for amount`), then
reject fractions of cents. -/
def Transaction.check_amount (amount : AmountInput) : Except PftError Dec :=
  if amount.falsy then .error (.invalidTransaction "transaction must have an amount")
  else
    match amount with
    | .dec d => Transaction.check_amount_decimals d
    | .int n => Transaction.check_amount_decimals ⟨n, 0⟩
    | .str s =>
      match decOfString s with
      | some d => Transaction.check_amount_decimals d
      | none => .error (.invalidTransaction "invalid amount")
    | .noneVal => .error (.invalidTransaction "transaction must have an amount")
    | .otherType => .error (.invalidTransaction "invalid type for amount")

/-- `Transaction._check_txn_date`: reject falsy dates, keep a `date`,
parse a string by splitting on `'-'` into exactly year, month and day
(anything else, including the US `M/D/YYYY` form, raises `ValueError`
inside the `try` and becomes `invalid txn_date`), and reject other
types. -/
def Transaction.check_txn_date (txn_date : DateInput) : Except PftError PDate :=
  if txn_date.falsy then .error (.invalidTransaction "transaction must have a txn_date")
  else
    match txn_date with
    | .date d => .ok d
    | .str s =>
      match splitAll '-' s.data with
      | [y, m, d] =>
        match intOfString y, intOfString m, intOfString d with
        | some yi, some mi, some di =>
          match mkPDate yi mi di with
          | some p => .ok p
          | none => .error (.invalidTransaction "invalid txn_date")
        | _, _, _ => .error (.invalidTransaction "invalid txn_date")
      | _ => .error (.invalidTransaction "invalid txn_date")
    | .noneVal => .error (.invalidTransaction "transaction must have a txn_date")
    | .otherType => .error (.invalidTransaction "invalid type for txn_date")

/-- The accumulation loop of `Transaction._check_categories`: a tuple
contributes its own amount, a bare `Category` contributes the
transaction amount and is paired with it. -/
def Transaction.categories_loop (amount : Dec) :
    List CatInput → Dec → List (Category × Dec) → Dec × List (Category × Dec)
  | [], total, acc => (total, acc)
  | .pair c a :: rest, total, acc =>
    Transaction.categories_loop amount rest (total.add a) (acc ++ [(c, a)])
  | .cat c :: rest, total, acc =>
    Transaction.categories_loop amount rest (total.add amount) (acc ++ [(c, amount)])

/-- `Transaction._check_categories`: accumulate the category total and
fail when its absolute value exceeds the transaction amount's.  There
is no minimum-split-count check and no zero-sum check. -/
def Transaction.check_categories (amount : Dec) (input_categories : List CatInput) :
    Except PftError (List (Category × Dec)) :=
  let r := Transaction.categories_loop amount input_categories ⟨0, 0⟩ []
  if r.1.abs.le amount.abs then .ok r.2
  else .error (.invalidTransaction "split categories add up to more than txn amount")

/-- `Transaction.__init__`: validate account, amount, date and
categories in order; `txn_type`, `payee`, `description`, `status` and
`id_` are stored unchecked and unnormalized. -/
def Transaction.init (account : Option Account) (amount : AmountInput)
    (txn_date : DateInput) (txn_type : Option String) (categories : List CatInput)
    (payee : Option String) (description : Option String) (status : Option String)
    (id_ : Option Int) : Except PftError Transaction := do
  let acct ← Transaction.check_account account
  let amt ← Transaction.check_amount amount
  let d ← Transaction.check_txn_date txn_date
  let cats ← Transaction.check_categories amt categories
  .ok ⟨acct, amt, d, txn_type, cats, payee, description, status, id_⟩

/-- `Transaction.update_values` restricted to `status` (the only field
the status claim touches): a non-`None` status is stored verbatim, with
no normalization or validation. -/
def Transaction.update_status (t : Transaction) (status : Option String) : Transaction :=
  match status with
  | none => t
  | some s => { t with status := some s }

/-- Ascending order on dates, as `datetime.date` compares
(lexicographic on year, month, day). -/
def PDate.le (a b : PDate) : Bool :=
  a.year < b.year ∨ (a.year = b.year ∧
    (a.month < b.month ∨ (a.month = b.month ∧ a.day ≤ b.day)))

/-- The sort key of `Ledger.get_records`: compare transactions by
`txn_date`. -/
def txnDateLe (a b : Transaction) : Prop := PDate.le a.txn_date b.txn_date = true

instance : DecidableRel txnDateLe := fun _ _ => decEq _ _

/-- `Ledger` of `pft.py`: the `_txns` list in insertion order and the
`_starting_balance`. -/
structure Ledger where
  txns : List Transaction
  starting_balance : Dec
deriving DecidableEq

/-- `Ledger.__init__`: a missing starting balance is
`InvalidLedgerError`; the `isinstance(…, Decimal)` check cannot fail in
this typed embedding. -/
def Ledger.init (starting_balance : Option Dec) : Except PftError Ledger :=
  match starting_balance with
  | none => .error (.invalidLedger "ledger must have a starting balance")
  | some sb => .ok ⟨[], sb⟩

/-- `Ledger.add_transaction`: append to `_txns`. -/
def Ledger.add_transaction (l : Ledger) (txn : Transaction) : Ledger :=
  { l with txns := l.txns ++ [txn] }

/-- `Ledger.clear_txns`. -/
def Ledger.clear_txns (l : Ledger) : Ledger := { l with txns := [] }

/-- One row of `Ledger.get_records`' result:
`{'txn': t, 'balance': balance}`. -/
structure LedgerRecord where
  txn : Transaction
  balance : Dec
deriving DecidableEq

/-- `sorted(self._txns, key=lambda t: t.txn_date)`: Python's `sorted`
is a stable sort on the key, embedded as the stable
`List.insertionSort` on `txnDateLe`. -/
def Ledger.sorted_txns (l : Ledger) : List Transaction :=
  l.txns.insertionSort txnDateLe

/-- The accumulation loop of `Ledger.get_records`. -/
def Ledger.records_loop (balance : Dec) : List Transaction → List LedgerRecord
  | [] => []
  | t :: ts =>
    let b := balance.add t.amount
    ⟨t, b⟩ :: Ledger.records_loop b ts

/-- `Ledger.get_records`: sort `_txns` by `txn_date` and accumulate the
balance from `_starting_balance`. -/
def Ledger.get_records (l : Ledger) : List LedgerRecord :=
  Ledger.records_loop l.starting_balance (Ledger.sorted_txns l)

/-- The loosely-typed `year` argument of `Budget` (an `int`, a string,
or `None`). -/
inductive YearInput where
  | int (n : Int)
  | str (s : String)
  | noneVal
deriving DecidableEq

/-- Python truthiness of a `year` argument. -/
def YearInput.falsy : YearInput → Bool
  | .int n => n = 0
  | .str s => s.isEmpty
  | .noneVal => true

/-- `Budget` of `pft.py`: the `year` exactly as passed, the category
`info` list, and the id.  There are no `start_date`/`end_date` fields
and no date parameters on the constructor. -/
structure Budget where
  year : YearInput
  info : List (Category × Dec)
  id : Option Int
deriving DecidableEq

/-- `Budget.__init__`: a falsy `year` or falsy `info` is
`BudgetError`. -/
def Budget.init (year : YearInput) (info : Option (List (Category × Dec)))
    (id_ : Option Int) : Except PftError Budget :=
  if year.falsy then .error (.budgetError "must pass in year to Budget")
  else
    match info with
    | none => .error (.budgetError "must pass in category info to Budget")
    | some i =>
      if i.isEmpty then .error (.budgetError "must pass in category info to Budget")
      else .ok ⟨year, i, id_⟩

/-- A row of the `accounts` table
(`id INTEGER PRIMARY KEY, name TEXT, starting_balance TEXT`). -/
structure AccountRow where
  id : Int
  name : Option String
  starting_balance : String
deriving DecidableEq

/-- A row of the `categories` table (`id INTEGER PRIMARY KEY, name TEXT`). -/
structure CategoryRow where
  id : Int
  name : Option String
deriving DecidableEq

/-- A row of the `transactions` table. -/
structure TxnRow where
  id : Int
  account_id : Option Int
  txn_type : Option String
  txn_date : String
  payee : Option String
  amount : String
  description : Option String
  status : Option String
deriving DecidableEq

/-- A row of the `txn_categories` table
(`id INTEGER PRIMARY KEY, txn_id INTEGER, category_id INTEGER, amount TEXT`). -/
structure TxnCategoryRow where
  id : Int
  txn_id : Option Int
  category_id : Option Int
  amount : String
deriving DecidableEq

/-- A row of the `budgets` table (`id INTEGER PRIMARY KEY, name TEXT, year TEXT`). -/
structure BudgetRow where
  id : Int
  name : Option String
  year : String
deriving DecidableEq

/-- A row of the `budget_values` table. -/
structure BudgetValueRow where
  id : Int
  budget_id : Option Int
  category_id : Option Int
  amount : String
deriving DecidableEq

/-- The state of the SQLite database set up by
`SQLiteStorage._setup_db`, each table in rowid order. -/
structure DBState where
  accounts : List AccountRow
  categories : List CategoryRow
  transactions : List TxnRow
  txn_categories : List TxnCategoryRow
  budgets : List BudgetRow
  budget_values : List BudgetValueRow
deriving DecidableEq

/-- `cursor.lastrowid` after inserting into an `INTEGER PRIMARY KEY`
table: one more than the largest existing rowid. -/
def nextId (ids : List Int) : Int := ids.foldl max 0 + 1

/-- `SQLiteStorage.get_account`: look the row up by id (a `None` id or
a missing row makes the Python subscript raise), building the `Account`
with `Decimal(starting_balance)`. -/
def SQLiteStorage.get_account (st : DBState) (account_id : Option Int) : Option Account :=
  match account_id with
  | none => none
  | some aid =>
    match st.accounts.find? fun r => r.id = aid with
    | none => none
    | some row =>
      match decOfString row.starting_balance with
      | none => none
      | some sb => some ⟨some row.id, row.name, sb⟩

/-- `SQLiteStorage.get_category`: look the row up by id. -/
def SQLiteStorage.get_category (st : DBState) (category_id : Option Int) : Option Category :=
  match category_id with
  | none => none
  | some cid =>
    match st.categories.find? fun r => r.id = cid with
    | none => none
    | some row => some ⟨row.name, some row.id⟩

/-- `SQLiteStorage.save_account`: insert
`(name, str(starting_balance))`, assigning `lastrowid` to the
account. -/
def SQLiteStorage.save_account (st : DBState) (a : Account) : DBState × Account :=
  let aid := nextId (st.accounts.map AccountRow.id)
  ({ st with accounts := st.accounts ++ [⟨aid, a.name, decToString a.starting_balance⟩] },
   { a with id := some aid })

/-- The `txn_categories` insertion loop at the end of
`SQLiteStorage.save_txn`: each split amount is stored as
`str(category[1])`. -/
def SQLiteStorage.save_txn_categories (rows : List TxnCategoryRow) (txn_id : Int) :
    List (Category × Dec) → List TxnCategoryRow
  | [] => rows
  | (c, amt) :: rest =>
    SQLiteStorage.save_txn_categories
      (rows ++ [⟨nextId (rows.map TxnCategoryRow.id), some txn_id, c.id, decToString amt⟩])
      txn_id rest

/-- `SQLiteStorage.save_txn`: save the account first when it has no
(truthy) id, `UPDATE` when the transaction has a truthy id and `INSERT`
(assigning `lastrowid`) otherwise, always delete the transaction's old
`txn_categories` rows, and re-insert the current splits.  The date is
stored as `strftime('%Y-%m-%d')` and the amount as `str(amount)`. -/
def SQLiteStorage.txn_row (id : Int) (txn : Transaction) : TxnRow :=
  ⟨id, txn.account.id, txn.txn_type, dateToString txn.txn_date, txn.payee,
    decToString txn.amount, txn.description, txn.status⟩

/-- The `INSERT`/`UPDATE` step of `SQLiteStorage.save_txn`: a truthy
`txn.id` updates the matching row in place, otherwise a new row is
inserted and `lastrowid` becomes the transaction's id. -/
def SQLiteStorage.save_txn_row (st : DBState) (txn : Transaction) : DBState × Transaction :=
  if optIntFalsy txn.id then
    let newId := nextId (st.transactions.map TxnRow.id)
    ({ st with transactions := st.transactions ++ [SQLiteStorage.txn_row newId txn] },
     { txn with id := some newId })
  else
    ({ st with transactions := st.transactions.map fun r =>
        if some r.id = txn.id then SQLiteStorage.txn_row r.id txn else r },
     txn)

def SQLiteStorage.save_txn (st : DBState) (txn : Transaction) : DBState × Transaction :=
  let p1 : DBState × Transaction :=
    if optIntFalsy txn.account.id then
      let p0 := SQLiteStorage.save_account st txn.account
      (p0.1, { txn with account := p0.2 })
    else (st, txn)
  let p2 : DBState × Transaction := SQLiteStorage.save_txn_row p1.1 p1.2
  let st := p2.1
  let txn := p2.2
  let cleared := st.txn_categories.filter fun r => ¬ r.txn_id = txn.id
  ({ st with txn_categories :=
      match txn.id with
      | some tid => SQLiteStorage.save_txn_categories cleared tid txn.categories
      | none => cleared },
   txn)

/-- `SQLiteStorage.delete_txn`: delete the `transactions` row only —
`txn_categories` rows are not touched. -/
def SQLiteStorage.delete_txn (st : DBState) (txn_id : Int) : DBState :=
  { st with transactions := st.transactions.filter fun r => ¬ r.id = txn_id }

/-- The category-collection loop of `SQLiteStorage._txn_from_db_record`
over the transaction's `txn_categories` rows. -/
def SQLiteStorage.txn_categories_of_rows (st : DBState) :
    List TxnCategoryRow → Option (List (Category × Dec))
  | [] => some []
  | r :: rest => do
    let c ← SQLiteStorage.get_category st r.category_id
    let amt ← decOfString r.amount
    let tail ← SQLiteStorage.txn_categories_of_rows st rest
    pure ((c, amt) :: tail)

/-- `SQLiteStorage._txn_from_db_record`: split the stored date on
`'-'` into exactly three `int(…)` components, parse the amount with
`Decimal`, fetch the account and the split categories, and re-run the
full `Transaction` constructor. -/
def SQLiteStorage.txn_from_db_record (st : DBState) (row : TxnRow) :
    Except PftError Transaction := do
  let d ←
    match splitAll '-' row.txn_date.data with
    | [y, m, dd] =>
      match intOfString y, intOfString m, intOfString dd with
      | some yi, some mi, some di =>
        match mkPDate yi mi di with
        | some p => Except.ok p
        | none => Except.error (.pyError "ValueError: invalid date components")
      | _, _, _ => Except.error (.pyError "ValueError: invalid literal for int")
    | _ => Except.error (.pyError "ValueError: unpacking txn_date")
  let amt ←
    match decOfString row.amount with
    | some a => Except.ok a
    | none => Except.error (.pyError "InvalidOperation: bad amount string")
  let acct ←
    match SQLiteStorage.get_account st row.account_id with
    | some a => Except.ok a
    | none => Except.error (.pyError "TypeError: account row not found")
  let cats ←
    match SQLiteStorage.txn_categories_of_rows st
        (st.txn_categories.filter fun r => r.txn_id = some row.id) with
    | some cs => Except.ok cs
    | none => Except.error (.pyError "error building categories")
  Transaction.init (some acct) (.dec amt) (.date d) row.txn_type
    (cats.map fun p => CatInput.pair p.1 p.2) row.payee row.description row.status
    (some row.id)

/-- Reloading a stored transaction by id: find its `transactions` row
(as `load_txns_into_ledger`'s `SELECT` does) and rebuild it with
`_txn_from_db_record`. -/
def SQLiteStorage.load_txn (st : DBState) (txn_id : Option Int) : Except PftError Transaction :=
  match st.transactions.find? fun r => some r.id = txn_id with
  | some row => SQLiteStorage.txn_from_db_record st row
  | none => .error (.pyError "no transactions row with this id")

/-- The `budget_values` collection loop of `SQLiteStorage.get_budget`. -/
def SQLiteStorage.budget_info_of_rows (st : DBState) :
    List BudgetValueRow → Option (List (Category × Dec))
  | [] => some []
  | r :: rest => do
    let c ← SQLiteStorage.get_category st r.category_id
    let amt ← decOfString r.amount
    let tail ← SQLiteStorage.budget_info_of_rows st rest
    pure ((c, amt) :: tail)

/-- `SQLiteStorage.get_budget`: `int(year)` of the first matching
`budgets` row, the `(category, Decimal(amount))` pairs of its
`budget_values` rows, then `Budget(year=year, info=info)` — with no id
passed on. -/
def SQLiteStorage.get_budget (st : DBState) (budget_id : Int) : Option Budget :=
  match st.budgets.find? fun r => r.id = budget_id with
  | none => none
  | some row =>
    match intOfString row.year.data with
    | none => none
    | some y =>
      match SQLiteStorage.budget_info_of_rows st
          (st.budget_values.filter fun r => r.budget_id = some budget_id) with
      | none => none
      | some info =>
        match Budget.init (.int y) (some info) none with
        | .ok b => some b
        | .error _ => none

/-- `SQLiteStorage.get_budgets`: iterate over all `budgets` rows but
look every budget up by `int(budget_records[0][0])` — the id of the
*first* row — on every iteration. -/
def SQLiteStorage.get_budgets (st : DBState) : Option (List Budget) :=
  match st.budgets with
  | [] => some []
  | r0 :: _ =>
    (st.budgets.map fun _ => SQLiteStorage.get_budget st r0.id).traverse id

/-- Modelled from the spec: `increment_month` is absent from
`src/pft.py` (only `tests.py` exercises it); §4.1 of the spec defines
it as advancing one calendar month, clamping the day-of-month to the
last valid day of the target month. -/
def increment_month (d : PDate) : PDate :=
  let y := if d.month = 12 then d.year + 1 else d.year
  let m := if d.month = 12 then 1 else d.month + 1
  ⟨y, m, min d.day (daysInMonth y m)⟩

/-- Modelled from the spec: `increment_quarter` is absent from
`src/pft.py`.  §4.1 of the spec calls it "three applications of
`increment_month`", but that contradicts the spec's own examples
(three clamped one-month steps take 2018-01-31 to 2018-04-28, not the
stated 2018-04-30, because the day is clamped to 28 in February and
never restored); the examples — which `tests.py` asserts as well —
determine the function instead: advance three calendar months and clamp
the day-of-month once, to the last valid day of the target month. -/
def increment_quarter (d : PDate) : PDate :=
  let y := if d.month + 3 > 12 then d.year + 1 else d.year
  let m := if d.month + 3 > 12 then d.month + 3 - 12 else d.month + 3
  ⟨y, m, min d.day (daysInMonth y m)⟩

theorem digitVal_digitChar {n : Nat} (h : n < 10) : digitVal (digitChar n) = some n := by
  interval_cases n <;> decide

theorem mem_natDigitsAux {fuel n : Nat} {c : Char} (hc : c ∈ natDigitsAux fuel n) :
    ∃ v, v < 10 ∧ c = digitChar v := by
  induction fuel generalizing n with
  | zero => simp [natDigitsAux] at hc
  | succ fuel ih =>
    rw [natDigitsAux] at hc
    split at hc
    · next h => exact ⟨n, h, by simpa using hc⟩
    · rcases List.mem_append.mp hc with h | h
      · exact ih h
      · exact ⟨n % 10, Nat.mod_lt _ (by omega), by simpa using h⟩

theorem mem_natDigits_isSome {n : Nat} {c : Char} (hc : c ∈ natDigits n) :
    (digitVal c).isSome = true := by
  obtain ⟨v, hv, rfl⟩ := mem_natDigitsAux hc
  rw [digitVal_digitChar hv]
  rfl

theorem natDigitsAux_ne_nil {fuel n : Nat} (h : n < fuel) : natDigitsAux fuel n ≠ [] := by
  cases fuel with
  | zero => omega
  | succ fuel =>
    rw [natDigitsAux]
    split
    · simp
    · simp

theorem readDigitsAux_append (xs ys : List Char) (acc : Nat) :
    readDigitsAux (xs ++ ys) acc =
      match readDigitsAux xs acc with
      | some v => readDigitsAux ys v
      | none => none := by
  induction xs generalizing acc with
  | nil => simp [readDigitsAux]
  | cons c cs ih =>
    rw [List.cons_append, readDigitsAux, readDigitsAux]
    cases digitVal c with
    | none => rfl
    | some v => exact ih _

theorem readDigitsAux_natDigitsAux {fuel n : Nat} (h : n < fuel) (acc : Nat) :
    readDigitsAux (natDigitsAux fuel n) acc =
      some (acc * 10 ^ (natDigitsAux fuel n).length + n) := by
  induction fuel generalizing n acc with
  | zero => omega
  | succ fuel ih =>
    rw [natDigitsAux]
    split
    · next h10 =>
      simp [readDigitsAux, digitVal_digitChar h10]
    · next h10 =>
      have hrec : n / 10 < fuel := by
        have hdiv : n / 10 < n := Nat.div_lt_self (by omega) (by omega)
        omega
      rw [readDigitsAux_append, ih hrec]
      simp only [readDigitsAux, digitVal_digitChar (Nat.mod_lt n (by omega))]
      have hlen : (natDigitsAux fuel (n / 10) ++ [digitChar (n % 10)]).length
          = (natDigitsAux fuel (n / 10)).length + 1 := by simp
      rw [hlen, pow_succ]
      have hdm := Nat.div_add_mod n 10
      congr 1
      set k := (natDigitsAux fuel (n / 10)).length
      set K := (10 : Nat) ^ k
      ring_nf
      omega

theorem readDigits_natDigits (n : Nat) : readDigits (natDigits n) = some n := by
  rw [readDigits, natDigits]
  have hne := @natDigitsAux_ne_nil (n + 1) n (by omega)
  rw [if_neg (by simpa [List.isEmpty_iff] using hne)]
  rw [readDigitsAux_natDigitsAux (by omega)]
  simp

theorem readDigitsAux_replicate_zero (k : Nat) (rest : List Char) (acc : Nat) :
    readDigitsAux (List.replicate k '0' ++ rest) acc = readDigitsAux rest (acc * 10 ^ k) := by
  induction k generalizing acc with
  | zero => simp
  | succ k ih =>
    rw [List.replicate_succ, List.cons_append]
    have hstep : readDigitsAux ('0' :: (List.replicate k '0' ++ rest)) acc
        = readDigitsAux (List.replicate k '0' ++ rest) (acc * 10 + 0) := rfl
    rw [hstep, ih, pow_succ]
    ring_nf

theorem readDigits_padDigits (w n : Nat) : readDigits (padDigits w (natDigits n)) = some n := by
  rw [readDigits, padDigits]
  have hne := @natDigitsAux_ne_nil (n + 1) n (by omega)
  rw [if_neg]
  · rw [readDigitsAux_replicate_zero, Nat.zero_mul, natDigits,
      readDigitsAux_natDigitsAux (by omega)]
    simp
  · simp only [List.isEmpty_iff, List.append_eq_nil]
    rintro ⟨-, h⟩
    exact hne (by simpa [natDigits] using h)

theorem mem_padDigits_natDigits_isSome {w n : Nat} {c : Char}
    (hc : c ∈ padDigits w (natDigits n)) : (digitVal c).isSome = true := by
  rw [padDigits] at hc
  rcases List.mem_append.mp hc with h | h
  · rw [List.eq_of_mem_replicate h]
    decide
  · exact mem_natDigits_isSome h

theorem isSome_digitVal_ne {c sep : Char} (h : (digitVal c).isSome = true)
    (hsep : digitVal sep = none) : c ≠ sep := by
  intro he
  rw [he, hsep] at h
  exact Bool.noConfusion h

theorem splitFirst_of_not_mem {sep : Char} {cs : List Char} (h : sep ∉ cs) :
    splitFirst sep cs = (cs, none) := by
  induction cs with
  | nil => rfl
  | cons c cs ih =>
    rw [splitFirst, if_neg (by rintro rfl; exact h (List.mem_cons_self ..)),
      ih (fun hm => h (List.mem_cons_of_mem _ hm))]

theorem splitFirst_append {sep : Char} {xs : List Char} (ys : List Char) (h : sep ∉ xs) :
    splitFirst sep (xs ++ sep :: ys) = (xs, some ys) := by
  induction xs with
  | nil => simp [splitFirst]
  | cons c cs ih =>
    rw [List.cons_append, splitFirst,
      if_neg (by rintro rfl; exact h (List.mem_cons_self ..)),
      ih (fun hm => h (List.mem_cons_of_mem _ hm))]

theorem splitAll_of_not_mem {sep : Char} {cs : List Char} (h : sep ∉ cs) :
    splitAll sep cs = [cs] := by
  induction cs with
  | nil => rfl
  | cons c cs ih =>
    rw [splitAll, ih (fun hm => h (List.mem_cons_of_mem _ hm))]
    rw [if_neg (by rintro rfl; exact h (List.mem_cons_self ..))]

theorem splitAll_append {sep : Char} {xs : List Char} (ys : List Char) (h : sep ∉ xs) :
    splitAll sep (xs ++ sep :: ys) = xs :: splitAll sep ys := by
  induction xs with
  | nil =>
    rw [List.nil_append, splitAll, if_pos rfl]
  | cons c cs ih =>
    rw [List.cons_append, splitAll, ih (fun hm => h (List.mem_cons_of_mem _ hm)),
      if_neg (by rintro rfl; exact h (List.mem_cons_self ..))]

theorem splitAll_ne_nil {sep : Char} (cs : List Char) : splitAll sep cs ≠ [] := by
  induction cs with
  | nil => simp [splitAll]
  | cons c cs ih =>
    rw [splitAll]
    split
    · simp
    · match h : splitAll sep cs with
      | [] => exact absurd h ih
      | p :: ps => simp

theorem not_mem_of_digits {sep : Char} {cs : List Char}
    (hall : ∀ c ∈ cs, (digitVal c).isSome = true) (hsep : digitVal sep = none) :
    sep ∉ cs := fun hm => isSome_digitVal_ne (hall sep hm) hsep rfl

theorem intOfString_of_digits {cs : List Char}
    (hall : ∀ c ∈ cs, (digitVal c).isSome = true) (hne : cs ≠ []) {n : Nat}
    (hval : readDigits cs = some n) : intOfString cs = some (n : Int) := by
  match cs, hne with
  | c :: rest, _ =>
    have hc := hall c (List.mem_cons_self ..)
    have hminus : c ≠ '-' := isSome_digitVal_ne hc (by decide)
    have hplus : c ≠ '+' := isSome_digitVal_ne hc (by decide)
    rw [intOfString.eq_def]
    split
    · next heq => exact absurd (List.head_eq_of_cons_eq heq) hminus
    · next heq => exact absurd (List.head_eq_of_cons_eq heq) hplus
    · rw [hval]
      rfl

theorem mem_dateChars_parts {p : PDate} :
    (∀ c ∈ padDigits 4 (natDigits p.year), (digitVal c).isSome = true) ∧
    (∀ c ∈ padDigits 2 (natDigits p.month), (digitVal c).isSome = true) ∧
    (∀ c ∈ padDigits 2 (natDigits p.day), (digitVal c).isSome = true) :=
  ⟨fun _ hc => mem_padDigits_natDigits_isSome hc,
   fun _ hc => mem_padDigits_natDigits_isSome hc,
   fun _ hc => mem_padDigits_natDigits_isSome hc⟩

theorem padDigits_ne_nil (w n : Nat) : padDigits w (natDigits n) ≠ [] := by
  rw [padDigits]
  simp only [ne_eq, List.append_eq_nil]
  rintro ⟨-, h⟩
  exact @natDigitsAux_ne_nil (n + 1) n (by omega) (by simpa [natDigits] using h)

theorem splitAll_dateChars (p : PDate) :
    splitAll '-' (dateChars p) =
      [padDigits 4 (natDigits p.year), padDigits 2 (natDigits p.month),
        padDigits 2 (natDigits p.day)] := by
  obtain ⟨hy, hm, hd⟩ := mem_dateChars_parts (p := p)
  rw [dateChars, splitAll_append _ (not_mem_of_digits hy (by decide)),
    splitAll_append _ (not_mem_of_digits hm (by decide)),
    splitAll_of_not_mem (not_mem_of_digits hd (by decide))]

theorem mkPDate_of_valid {p : PDate} (h : isValidDate p = true) :
    mkPDate (p.year : Int) (p.month : Int) (p.day : Int) = some p := by
  rw [mkPDate, if_pos (by omega)]
  simp only [Int.toNat_natCast]
  rw [if_pos (by cases p; exact h)]

theorem date_round_trip {p : PDate} (h : isValidDate p = true) :
    (match splitAll '-' (dateToString p).data with
      | [y, m, dd] =>
        match intOfString y, intOfString m, intOfString dd with
        | some yi, some mi, some di => mkPDate yi mi di
        | _, _, _ => none
      | _ => none) = some p := by
  obtain ⟨hy, hm, hd⟩ := mem_dateChars_parts (p := p)
  have hds : (dateToString p).data = dateChars p := rfl
  have h1 := intOfString_of_digits hy (padDigits_ne_nil _ _) (readDigits_padDigits _ _)
  have h2 := intOfString_of_digits hm (padDigits_ne_nil _ _) (readDigits_padDigits _ _)
  have h3 := intOfString_of_digits hd (padDigits_ne_nil _ _) (readDigits_padDigits _ _)
  rw [hds, splitAll_dateChars]
  simp only [h1, h2, h3]
  exact mkPDate_of_valid h

theorem padDigits_length (w : Nat) (cs : List Char) :
    (padDigits w cs).length = max w cs.length := by
  simp only [padDigits, List.length_append, List.length_replicate]
  omega

theorem parseMantissa_digits {cs : List Char} (hall : ∀ c ∈ cs, (digitVal c).isSome = true)
    {v : Nat} (hv : readDigits cs = some v) : parseMantissa cs = some (v, 0) := by
  have hs := splitFirst_of_not_mem (not_mem_of_digits hall (by decide : digitVal '.' = none))
  simp only [parseMantissa, hs, hv, Option.map_some']

theorem parseMantissa_point {ip fp : List Char}
    (hip : ∀ c ∈ ip, (digitVal c).isSome = true) {v : Nat}
    (hv : readDigits (ip ++ fp) = some v) (hne : (ip ++ fp).isEmpty = false) :
    parseMantissa (ip ++ '.' :: fp) = some (v, fp.length) := by
  have hs := @splitFirst_append '.' _ fp (not_mem_of_digits hip (by decide))
  simp only [parseMantissa, hs, hv, hne]
  rfl

theorem parseUnsignedDec_no_E {cs : List Char} (h : 'E' ∉ cs) :
    parseUnsignedDec cs = parseMantissa cs := by
  have hs := splitFirst_of_not_mem h
  simp only [parseUnsignedDec, hs]

theorem parseUnsignedDec_E_neg {mant eds : List Char} (h : 'E' ∉ mant)
    {v fl : Nat} (hm : parseMantissa mant = some (v, fl)) {k : Nat}
    (hk : readDigits eds = some k) :
    parseUnsignedDec (mant ++ 'E' :: '-' :: eds) = some (v, fl + k) := by
  have hs := @splitFirst_append 'E' _ ('-' :: eds) h
  simp only [parseUnsignedDec, hs, hm, hk]
  rfl

theorem parseDecChars_cons_digit {c : Char} {rest : List Char}
    (hc : (digitVal c).isSome = true) :
    parseDecChars (c :: rest) =
      (parseUnsignedDec (c :: rest)).map fun p => (⟨(p.1 : Int), p.2⟩ : Dec) := by
  have hminus : c ≠ '-' := isSome_digitVal_ne hc (by decide)
  have hplus : c ≠ '+' := isSome_digitVal_ne hc (by decide)
  rw [parseDecChars.eq_def]
  split
  · next heq => exact absurd (List.head_eq_of_cons_eq heq) hminus
  · next heq => exact absurd (List.head_eq_of_cons_eq heq) hplus
  · rfl

/-- The sign-less part of `decChars`. -/
def decBody (na e : Nat) : List Char :=
  let ds := natDigits na
  if e = 0 then ds
  else if e ≤ ds.length + 5 then
    let padded := padDigits (e + 1) ds
    padded.take (padded.length - e) ++ '.' :: padded.drop (padded.length - e)
  else
    (natDigits na).take 1 ++
      ((if (natDigits na).length = 1 then [] else '.' :: (natDigits na).drop 1) ++
        'E' :: '-' :: natDigits (e - ((natDigits na).length - 1)))


theorem decChars_eq_sign_append (d : Dec) :
    decChars d = (if d.coeff < 0 then ['-'] else []) ++ decBody d.coeff.natAbs d.exp := by
  by_cases h0 : d.exp = 0
  · simp [decChars, decBody, h0]
  · by_cases h1 : d.exp ≤ (natDigits d.coeff.natAbs).length + 5
    · simp [decChars, decBody, h0, h1, List.append_assoc]
    · simp [decChars, decBody, h0, h1, List.append_assoc]

theorem natDigits_ne_nil (n : Nat) : natDigits n ≠ [] :=
  natDigitsAux_ne_nil (by omega)

theorem parseUnsignedDec_decBody (na e : Nat) :
    parseUnsignedDec (decBody na e) = some (na, e) := by
  have hds : ∀ c ∈ natDigits na, (digitVal c).isSome = true := fun _ => mem_natDigits_isSome
  have hne : natDigits na ≠ [] := natDigits_ne_nil na
  by_cases h0 : e = 0
  · subst h0
    have hb : decBody na 0 = natDigits na := by simp [decBody]
    rw [hb, parseUnsignedDec_no_E (not_mem_of_digits hds (by decide)),
      parseMantissa_digits hds (readDigits_natDigits na)]
  · by_cases hplain : e ≤ (natDigits na).length + 5
    · simp only [decBody, if_neg h0, if_pos hplain]
      set padded := padDigits (e + 1) (natDigits na) with hpad
      have hpall : ∀ c ∈ padded, (digitVal c).isSome = true :=
        fun _ hc => mem_padDigits_natDigits_isSome hc
      have hL : padded.length = max (e + 1) (natDigits na).length := padDigits_length _ _
      have htake : ∀ c ∈ padded.take (padded.length - e), (digitVal c).isSome = true :=
        fun c hc => hpall c (List.mem_of_mem_take hc)
      have hdrop : ∀ c ∈ padded.drop (padded.length - e), (digitVal c).isSome = true :=
        fun c hc => hpall c (List.mem_of_mem_drop hc)
      have hEnotin : 'E' ∉ padded.take (padded.length - e) ++ '.' :: padded.drop (padded.length - e) := by
        intro hmem
        rcases List.mem_append.mp hmem with hm | hm
        · exact isSome_digitVal_ne (htake _ hm) (by decide) rfl
        · rcases List.mem_cons.mp hm with hm | hm
          · exact absurd hm (by decide)
          · exact isSome_digitVal_ne (hdrop _ hm) (by decide) rfl
      rw [parseUnsignedDec_no_E hEnotin]
      have hrecomb : padded.take (padded.length - e) ++ padded.drop (padded.length - e) = padded :=
        List.take_append_drop _ _
      have hread : readDigits (padded.take (padded.length - e) ++ padded.drop (padded.length - e))
          = some na := by rw [hrecomb, hpad]; exact readDigits_padDigits _ _
      have hnemp : (padded.take (padded.length - e) ++ padded.drop (padded.length - e)).isEmpty = false := by
        rw [hrecomb]
        have h2 := padDigits_ne_nil (e + 1) na
        rw [hpad]
        simpa [List.isEmpty_iff] using h2
      rw [parseMantissa_point htake hread hnemp]
      have hfl : (padded.drop (padded.length - e)).length = e := by
        rw [List.length_drop]
        omega
      rw [hfl]
    · simp only [decBody, if_neg h0, if_neg hplain]
      obtain ⟨c, tail, hds2⟩ := List.exists_cons_of_ne_nil hne
      rw [hds2]
      have hcd : (digitVal c).isSome = true := mem_natDigits_isSome (hds2 ▸ List.mem_cons_self ..)
      have htaild : ∀ x ∈ tail, (digitVal x).isSome = true :=
        fun x hx => mem_natDigits_isSome (hds2 ▸ List.mem_cons_of_mem _ hx)
      have hread : readDigits (c :: tail) = some na := hds2 ▸ readDigits_natDigits na
      have heds : readDigits (natDigits (e - ((c :: tail).length - 1)))
          = some (e - ((c :: tail).length - 1)) := readDigits_natDigits _
      cases tail with
      | nil =>
        rw [if_pos (by simp)]
        simp only [List.take_succ_cons, List.take_nil, List.nil_append]
        have hsingle : ∀ x ∈ [c], (digitVal x).isSome = true := by
          intro x hx
          rcases List.mem_singleton.mp hx with rfl
          exact hcd
        rw [parseUnsignedDec_E_neg (not_mem_of_digits hsingle (by decide))
          (parseMantissa_digits hsingle hread) heds]
        simp
      | cons t0 ts =>
        rw [if_neg (by simp)]
        have htake1 : (c :: t0 :: ts).take 1 = [c] := by simp
        have hdrop1 : (c :: t0 :: ts).drop 1 = t0 :: ts := by simp
        rw [htake1, hdrop1]
        have hmant : parseMantissa ([c] ++ '.' :: (t0 :: ts)) = some (na, (t0 :: ts).length) := by
          refine parseMantissa_point (fun x hx => by
            rcases List.mem_singleton.mp hx with rfl
            exact hcd) ?_ (by simp)
          simpa using hread
        have hEmant : 'E' ∉ [c] ++ '.' :: (t0 :: ts) := by
          intro hmem
          rcases List.mem_append.mp hmem with hm | hm
          · rcases List.mem_singleton.mp hm with rfl
            exact isSome_digitVal_ne hcd (by decide) rfl
          · rcases List.mem_cons.mp hm with hm | hm
            · exact absurd hm (by decide)
            · exact isSome_digitVal_ne (htaild _ (List.mem_cons.mp hm |>.elim
                (fun h => h ▸ List.mem_cons_self ..) (fun h => List.mem_cons_of_mem _ h)))
                (by decide) rfl
        have hfin0 := parseUnsignedDec_E_neg hEmant hmant heds
        simp only [List.append_assoc, List.cons_append, List.singleton_append] at hfin0 ⊢
        rw [hfin0]
        have hfin : (t0 :: ts).length + (e - ((c :: t0 :: ts).length - 1)) = e := by
          have hlen : (natDigits na).length = (c :: t0 :: ts).length := by rw [hds2]
          simp only [List.length_cons] at hlen hplain ⊢
          omega
        rw [hfin]

theorem decBody_cons_digit (na e : Nat) :
    ∃ c rest, decBody na e = c :: rest ∧ (digitVal c).isSome = true := by
  have hne : natDigits na ≠ [] := natDigits_ne_nil na
  obtain ⟨c, tail, hds2⟩ := List.exists_cons_of_ne_nil hne
  have hcd : (digitVal c).isSome = true := mem_natDigits_isSome (hds2 ▸ List.mem_cons_self ..)
  by_cases h0 : e = 0
  · subst h0
    refine ⟨c, tail, ?_, hcd⟩
    simp [decBody, hds2]
  · by_cases hplain : e ≤ (natDigits na).length + 5
    · simp only [decBody, if_neg h0, if_pos hplain]
      set padded := padDigits (e + 1) (natDigits na) with hpad
      have hL : padded.length = max (e + 1) (natDigits na).length := padDigits_length _ _
      have hlen : (padded.take (padded.length - e)).length = padded.length - e := by
        rw [List.length_take]
        omega
      have hnen : padded.take (padded.length - e) ≠ [] := by
        intro hnil
        rw [hnil] at hlen
        simp only [List.length_nil] at hlen
        omega
      obtain ⟨c2, tail2, htk⟩ := List.exists_cons_of_ne_nil hnen
      refine ⟨c2, tail2 ++ '.' :: padded.drop (padded.length - e), by rw [htk]; simp, ?_⟩
      exact mem_padDigits_natDigits_isSome (List.mem_of_mem_take (htk ▸ List.mem_cons_self ..))
    · refine ⟨c, (if (c :: tail).length = 1 then [] else '.' :: tail) ++
        'E' :: '-' :: natDigits (e - ((c :: tail).length - 1)), ?_, hcd⟩
      simp only [decBody]
      rw [if_neg h0, if_neg hplain, hds2]
      simp

theorem parseDecChars_decChars (d : Dec) : parseDecChars (decChars d) = some d := by
  obtain ⟨dc, de⟩ := d
  rw [decChars_eq_sign_append]
  obtain ⟨c, rest, hbody, hc⟩ := decBody_cons_digit dc.natAbs de
  by_cases hneg : dc < 0
  · rw [if_pos hneg]
    have hstep : parseDecChars (['-'] ++ decBody dc.natAbs de)
        = (parseUnsignedDec (decBody dc.natAbs de)).map
            fun p => (⟨-(p.1 : Int), p.2⟩ : Dec) := rfl
    rw [hstep, parseUnsignedDec_decBody]
    simp only [Option.map_some', Option.some.injEq, Dec.mk.injEq]
    exact ⟨by omega, trivial⟩
  · rw [if_neg hneg, List.nil_append, hbody, parseDecChars_cons_digit hc, ← hbody,
      parseUnsignedDec_decBody]
    simp only [Option.map_some', Option.some.injEq, Dec.mk.injEq]
    exact ⟨by omega, trivial⟩

theorem decOfString_decToString (d : Dec) : decOfString (decToString d) = some d :=
  parseDecChars_decChars d

theorem foldl_max_le_init (ids : List Int) (a : Int) : a ≤ ids.foldl max a := by
  induction ids generalizing a with
  | nil => simp
  | cons b bs ih => exact le_trans (le_max_left a b) (ih (max a b))

theorem le_foldl_max (ids : List Int) (a : Int) {x : Int} (hx : x ∈ ids) :
    x ≤ ids.foldl max a := by
  induction ids generalizing a with
  | nil => simp at hx
  | cons b bs ih =>
    rw [List.foldl_cons]
    rcases List.mem_cons.mp hx with rfl | hx
    · exact le_trans (le_max_right a x) (foldl_max_le_init bs _)
    · exact ih (max a b) hx

theorem mem_lt_nextId {ids : List Int} {x : Int} (hx : x ∈ ids) : x < nextId ids := by
  have := le_foldl_max ids 0 hx
  rw [nextId]
  omega

theorem find?_append_of_none {α : Type} (p : α → Bool) {l₁ : List α} (l₂ : List α)
    (h : ∀ x ∈ l₁, p x = false) : (l₁ ++ l₂).find? p = l₂.find? p := by
  induction l₁ with
  | nil => rfl
  | cons a l ih =>
    rw [List.cons_append, List.find?]
    rw [h a (List.mem_cons_self ..)]
    exact ih fun x hx => h x (List.mem_cons_of_mem _ hx)

theorem filter_append_left_false {α : Type} (p : α → Bool) {l₁ : List α} (l₂ : List α)
    (h : ∀ x ∈ l₁, p x = false) : (l₁ ++ l₂).filter p = l₂.filter p := by
  rw [List.filter_append, List.filter_eq_nil_iff.mpr (by simpa using h), List.nil_append]

theorem save_txn_categories_spec (st : DBState) (tid : Int)
    (cats : List (Category × Dec))
    (hcats : ∀ p ∈ cats, ∃ cid, p.1.id = some cid ∧
      st.categories.find? (fun r => r.id = cid) = some ⟨cid, p.1.name⟩) :
    ∀ rows : List TxnCategoryRow,
      ∃ newRows, SQLiteStorage.save_txn_categories rows tid cats = rows ++ newRows ∧
        (∀ r ∈ newRows, r.txn_id = some tid) ∧
        SQLiteStorage.txn_categories_of_rows st newRows = some cats := by
  induction cats with
  | nil =>
    intro rows
    exact ⟨[], by simp [SQLiteStorage.save_txn_categories],
      by simp, by simp [SQLiteStorage.txn_categories_of_rows]⟩
  | cons p rest ih =>
    intro rows
    obtain ⟨c, amt⟩ := p
    obtain ⟨cid, hcid, hfind⟩ := hcats (c, amt) (List.mem_cons_self ..)
    obtain ⟨newRows, hsave, htid, hload⟩ :=
      ih (fun q hq => hcats q (List.mem_cons_of_mem _ hq))
        (rows ++ [⟨nextId (rows.map TxnCategoryRow.id), some tid, c.id, decToString amt⟩])
    refine ⟨⟨nextId (rows.map TxnCategoryRow.id), some tid, c.id, decToString amt⟩ :: newRows,
      ?_, ?_, ?_⟩
    · rw [SQLiteStorage.save_txn_categories, hsave, List.append_assoc]
      rfl
    · intro r hr
      rcases List.mem_cons.mp hr with rfl | hr
      · rfl
      · exact htid r hr
    · rw [SQLiteStorage.txn_categories_of_rows]
      have hgc : SQLiteStorage.get_category st c.id = some c := by
        obtain ⟨nm, cidf⟩ := c
        simp only at hcid ⊢
        rw [hcid, SQLiteStorage.get_category, hfind]
      rw [hgc]
      simp only [Option.bind_eq_bind, Option.some_bind]
      rw [decOfString_decToString, hload]
      rfl

theorem txn_row_falsy_pred {r : TxnRow} {i : Int} (h : r.id < i) :
    (some r.id = some i : Bool) = false := by
  simp only [decide_eq_false_iff_not, ne_eq, Option.some.injEq]
  omega

theorem save_txn_fresh_parts (st : DBState) (txn : Transaction)
    (hid : txn.id = none) (hfalsy : optIntFalsy txn.account.id = false) :
    (SQLiteStorage.save_txn st txn).1.accounts = st.accounts ∧
    (SQLiteStorage.save_txn st txn).1.categories = st.categories ∧
    (SQLiteStorage.save_txn st txn).1.transactions = st.transactions ++
      [SQLiteStorage.txn_row (nextId (st.transactions.map TxnRow.id)) txn] ∧
    (SQLiteStorage.save_txn st txn).1.txn_categories =
      SQLiteStorage.save_txn_categories
        (st.txn_categories.filter fun r =>
          ¬ r.txn_id = some (nextId (st.transactions.map TxnRow.id)))
        (nextId (st.transactions.map TxnRow.id)) txn.categories ∧
    (SQLiteStorage.save_txn st txn).2 =
      { txn with id := some (nextId (st.transactions.map TxnRow.id)) } := by
  have hnone : optIntFalsy none = true := rfl
  simp [SQLiteStorage.save_txn, SQLiteStorage.save_txn_row, hfalsy, hid, hnone]


theorem except_ok_bind {ε α β : Type} (a : α) (f : α → Except ε β) :
    Except.ok (ε := ε) a >>= f = f a := rfl

/-- Claim C4 (amended): for every transaction successfully saved fresh
into storage — provided its amount is numerically nonzero, its amount
passes the fractions-of-cents re-check, its date is a valid calendar
date, its account is saved (truthy id with a parseable stored row), its
category splits all pass the abs-total re-check, and each split's
category is saved under its id and name — reloading it by its assigned
id reproduces the amount (exact decimal representation), txn_date,
txn_type, payee, description, status and category splits exactly, via
the decimal-string and ISO date encodings.  (The original claim, for
every saved transaction, fails: a saved zero-amount transaction cannot
be reloaded, see the counterexample.) -/
theorem c4_save_load_round_trip (st : DBState) (txn : Transaction) (aid : Int)
    (arow : AccountRow) (sb : Dec)
    (hid : txn.id = none)
    (haid : txn.account.id = some aid)
    (haid0 : ¬ aid = 0)
    (harow : st.accounts.find? (fun r => r.id = aid) = some arow)
    (hsb : decOfString arow.starting_balance = some sb)
    (hamt : ¬ txn.amount.coeff = 0)
    (hfrac : Transaction.check_amount_decimals txn.amount = .ok txn.amount)
    (hdate : isValidDate txn.txn_date = true)
    (hcats : ∀ p ∈ txn.categories, ∃ cid, p.1.id = some cid ∧
      st.categories.find? (fun r => r.id = cid) = some ⟨cid, p.1.name⟩)
    (hcheck : Transaction.check_categories txn.amount
      (txn.categories.map fun p => CatInput.pair p.1 p.2) = .ok txn.categories) :
    ∃ t : Transaction,
      SQLiteStorage.load_txn (SQLiteStorage.save_txn st txn).1
          (SQLiteStorage.save_txn st txn).2.id = .ok t ∧
      t.amount = txn.amount ∧ t.txn_date = txn.txn_date ∧ t.txn_type = txn.txn_type ∧
      t.payee = txn.payee ∧ t.description = txn.description ∧ t.status = txn.status ∧
      t.categories = txn.categories := by
  have hfalsy : optIntFalsy txn.account.id = false := by
    rw [haid]
    simpa [optIntFalsy] using haid0
  obtain ⟨hAcc, hCatTable, hTx, hCats, hT2⟩ := save_txn_fresh_parts st txn hid hfalsy
  set newId := nextId (st.transactions.map TxnRow.id) with hnew
  set st' := (SQLiteStorage.save_txn st txn).1 with hst
  have hfind : st'.transactions.find? (fun r => some r.id = some newId)
      = some (SQLiteStorage.txn_row newId txn) := by
    rw [hTx, find?_append_of_none _ _ (fun r hr =>
      txn_row_falsy_pred (mem_lt_nextId (List.mem_map_of_mem TxnRow.id hr)))]
    simp [List.find?, SQLiteStorage.txn_row]
  obtain ⟨newRows, hsaveRows, htid, hloadRows⟩ :=
    save_txn_categories_spec st' newId txn.categories
      (by rw [hCatTable]; exact hcats)
      (st.txn_categories.filter fun r => ¬ r.txn_id = some newId)
  have hfilter : (st'.txn_categories.filter fun r => r.txn_id = some newId) = newRows := by
    rw [hCats, hsaveRows, filter_append_left_false _ _ (fun r hr => by
      have hmem := (List.mem_filter.mp hr).2
      simpa using hmem)]
    exact List.filter_eq_self.mpr (fun r hr => by simp [htid r hr])
  obtain ⟨hy, hm, hd⟩ := mem_dateChars_parts (p := txn.txn_date)
  have h1 := intOfString_of_digits hy (padDigits_ne_nil _ _) (readDigits_padDigits _ _)
  have h2 := intOfString_of_digits hm (padDigits_ne_nil _ _) (readDigits_padDigits _ _)
  have h3 := intOfString_of_digits hd (padDigits_ne_nil _ _) (readDigits_padDigits _ _)
  have hdsdata : (dateToString txn.txn_date).data = dateChars txn.txn_date := rfl
  have hgetacct : SQLiteStorage.get_account st' (some aid)
      = some ⟨some arow.id, arow.name, sb⟩ := by
    rw [SQLiteStorage.get_account, hAcc]
    simp only [harow, hsb]
  refine ⟨⟨⟨some arow.id, arow.name, sb⟩, txn.amount, txn.txn_date, txn.txn_type,
    txn.categories, txn.payee, txn.description, txn.status, some newId⟩, ?_, rfl, rfl, rfl,
    rfl, rfl, rfl, rfl⟩
  rw [SQLiteStorage.load_txn, hT2]
  simp only [hfind]
  rw [SQLiteStorage.txn_from_db_record]
  simp only [SQLiteStorage.txn_row, hdsdata, splitAll_dateChars, h1, h2, h3,
    mkPDate_of_valid hdate, decOfString_decToString, haid, hgetacct, hfilter, hloadRows]
  simp only [except_ok_bind]
  rw [Transaction.init]
  simp only [Transaction.check_account, except_ok_bind]
  rw [Transaction.check_amount]
  rw [if_neg (by simp [AmountInput.falsy, Dec.falsy, hamt])]
  simp only [hfrac, except_ok_bind]
  rw [Transaction.check_txn_date]
  rw [if_neg (by simp [DateInput.falsy])]
  simp only [except_ok_bind, hcheck]

theorem PDate.le_iff {a b : PDate} : PDate.le a b = true ↔
    (a.year < b.year ∨ (a.year = b.year ∧
      (a.month < b.month ∨ (a.month = b.month ∧ a.day ≤ b.day)))) := by
  simp [PDate.le]

theorem txnDateLe_total (a b : Transaction) : txnDateLe a b ∨ txnDateLe b a := by
  rw [txnDateLe, txnDateLe, PDate.le_iff, PDate.le_iff]
  omega

theorem txnDateLe_trans {a b c : Transaction} (hab : txnDateLe a b) (hbc : txnDateLe b c) :
    txnDateLe a c := by
  rw [txnDateLe, PDate.le_iff] at *
  omega

theorem txnDateLe_of_date_eq {a b : Transaction} (h : a.txn_date = b.txn_date) :
    txnDateLe a b := by
  rw [txnDateLe, PDate.le_iff, h]
  omega

instance : IsTotal Transaction txnDateLe := ⟨txnDateLe_total⟩

instance : IsTrans Transaction txnDateLe := ⟨fun _ _ _ => txnDateLe_trans⟩

theorem filter_orderedInsert_dateEq (q : PDate) (x : Transaction) (l : List Transaction) :
    (l.orderedInsert txnDateLe x).filter (fun t => t.txn_date = q)
      = if x.txn_date = q then x :: l.filter (fun t => t.txn_date = q)
        else l.filter (fun t => t.txn_date = q) := by
  induction l with
  | nil =>
    rw [List.orderedInsert, List.filter_cons, List.filter_nil]
    by_cases hq : x.txn_date = q <;> simp [hq]
  | cons b bs ih =>
    rw [List.orderedInsert]
    by_cases hle : txnDateLe x b
    · rw [if_pos hle, List.filter_cons, List.filter_cons]
      by_cases hq : x.txn_date = q <;> simp [hq]
    · rw [if_neg hle, List.filter_cons, ih, List.filter_cons]
      have hnr : ¬ (x.txn_date = q ∧ b.txn_date = q) := by
        rintro ⟨hx, hb⟩
        exact hle (txnDateLe_of_date_eq (hx.trans hb.symm))
      by_cases hxq : x.txn_date = q
      · have hbq : ¬ b.txn_date = q := fun hb => hnr ⟨hxq, hb⟩
        simp [hxq, hbq]
      · by_cases hbq : b.txn_date = q <;> simp [hxq, hbq]

theorem filter_insertionSort_dateEq (q : PDate) (l : List Transaction) :
    (l.insertionSort txnDateLe).filter (fun t => t.txn_date = q)
      = l.filter (fun t => t.txn_date = q) := by
  induction l with
  | nil => rfl
  | cons a l ih =>
    rw [List.insertionSort, filter_orderedInsert_dateEq, List.filter_cons]
    by_cases hq : a.txn_date = q <;> simp [hq, ih]

theorem records_loop_txn (b : Dec) (ts : List Transaction) :
    (Ledger.records_loop b ts).map LedgerRecord.txn = ts := by
  induction ts generalizing b with
  | nil => rfl
  | cons t ts ih =>
    rw [Ledger.records_loop]
    simp only [List.map_cons, ih]

theorem records_loop_balance (b : Dec) (ts : List Transaction) :
    (Ledger.records_loop b ts).map LedgerRecord.balance
      = (List.scanl Dec.add b (ts.map Transaction.amount)).tail := by
  induction ts generalizing b with
  | nil => rfl
  | cons t ts ih =>
    rw [Ledger.records_loop]
    simp only [List.map_cons, List.scanl_cons, List.tail_cons, ih]
    cases ts with
    | nil => rfl
    | cons u us =>
      simp only [List.map_cons, List.scanl_cons, List.tail_cons]
      rfl

theorem daysInMonth_bounds (y m : Nat) : 1 ≤ daysInMonth y m ∧ daysInMonth y m ≤ 31 := by
  rw [daysInMonth]
  split_ifs <;> omega

theorem increment_month_spec (d : PDate) (h : isValidDate d = true) :
    (increment_month d).year * 12 + ((increment_month d).month - 1)
        = d.year * 12 + (d.month - 1) + 1 ∧
    (increment_month d).day
        = min d.day (daysInMonth (increment_month d).year (increment_month d).month) ∧
    1 ≤ (increment_month d).day ∧
    (increment_month d).day ≤ daysInMonth (increment_month d).year (increment_month d).month ∧
    1 ≤ (increment_month d).month ∧ (increment_month d).month ≤ 12 := by
  have hv : 1 ≤ d.year ∧ d.year ≤ 9999 ∧ 1 ≤ d.month ∧ d.month ≤ 12 ∧
      1 ≤ d.day ∧ d.day ≤ daysInMonth d.year d.month := by
    simpa [isValidDate] using h
  by_cases h12 : d.month = 12
  · have hb := daysInMonth_bounds (d.year + 1) 1
    simp only [increment_month, if_pos h12]
    refine ⟨by omega, by trivial, by omega, by omega, by omega, by omega⟩
  · have hb := daysInMonth_bounds d.year (d.month + 1)
    simp only [increment_month, if_neg h12]
    refine ⟨by omega, by trivial, by omega, by omega, by omega, by omega⟩

theorem increment_quarter_spec (d : PDate) (h : isValidDate d = true) :
    (increment_quarter d).year * 12 + ((increment_quarter d).month - 1)
        = d.year * 12 + (d.month - 1) + 3 ∧
    (increment_quarter d).day
        = min d.day (daysInMonth (increment_quarter d).year (increment_quarter d).month) ∧
    1 ≤ (increment_quarter d).day ∧
    (increment_quarter d).day ≤ daysInMonth (increment_quarter d).year (increment_quarter d).month ∧
    1 ≤ (increment_quarter d).month ∧ (increment_quarter d).month ≤ 12 := by
  have hv : 1 ≤ d.year ∧ d.year ≤ 9999 ∧ 1 ≤ d.month ∧ d.month ≤ 12 ∧
      1 ≤ d.day ∧ d.day ≤ daysInMonth d.year d.month := by
    simpa [isValidDate] using h
  by_cases h12 : d.month + 3 > 12
  · have hb := daysInMonth_bounds (d.year + 1) (d.month + 3 - 12)
    simp only [increment_quarter, if_pos h12]
    refine ⟨by omega, by trivial, by omega, by omega, by omega, by omega⟩
  · have hb := daysInMonth_bounds d.year (d.month + 3)
    simp only [increment_quarter, if_neg h12]
    refine ⟨by omega, by trivial, by omega, by omega, by omega, by omega⟩

/-- A saved asset account, shared by the concrete examples below. -/
def acc1 : Account := ⟨some 1, some "Checking", ⟨100, 0⟩⟩

/-- A saved category, shared by the concrete examples below. -/
def cat1 : Category := ⟨some "Food", some 1⟩

/-- A transaction literal against `acc1` (the Ledger does not
re-validate what is added to it). -/
def mkTxn (id_ : Int) (amt : Dec) (d : PDate) : Transaction :=
  ⟨acc1, amt, d, none, [], none, none, none, some id_⟩

/-- The ledger of `tests.py`'s running-balance example: starting
balance 0 and the four transactions dated 2017-08-05 (+32.45),
2017-06-05 (-12), 2017-07-30 (+1), 2017-04-25 (+10), added in that
order. -/
def ledgerEx : Ledger :=
  ((((⟨[], ⟨0, 0⟩⟩ : Ledger).add_transaction
      (mkTxn 1 ⟨3245, 2⟩ ⟨2017, 8, 5⟩)).add_transaction
      (mkTxn 2 ⟨-12, 0⟩ ⟨2017, 6, 5⟩)).add_transaction
      (mkTxn 3 ⟨1, 0⟩ ⟨2017, 7, 30⟩)).add_transaction
      (mkTxn 4 ⟨10, 0⟩ ⟨2017, 4, 25⟩)

/-- A ledger with the nonzero starting balance 5 and one +10
transaction. -/
def ledgerCx : Ledger :=
  (⟨[], ⟨5, 0⟩⟩ : Ledger).add_transaction (mkTxn 1 ⟨10, 0⟩ ⟨2017, 1, 1⟩)

/-- A database holding a saved account and a saved category. -/
def st4 : DBState := ⟨[⟨1, some "Checking", "100"⟩], [⟨1, some "Food"⟩], [], [], [], []⟩

/-- A fully populated unsaved transaction with one category split. -/
def txn4 : Transaction :=
  ⟨acc1, ⟨-101, 0⟩, ⟨2018, 1, 25⟩, some "BP", [(cat1, ⟨-6053, 2⟩)], some "Joe",
    some "groceries", some "C", none⟩

/-- An unsaved transaction whose amount is the `Decimal` zero produced
by constructing with the numeric string `"0"`. -/
def txn0 : Transaction := ⟨acc1, ⟨0, 0⟩, ⟨2018, 1, 25⟩, none, [], none, none, none, none⟩

/-- A database with two saved transactions whose splits are recorded in
`txn_categories`. -/
def st5 : DBState :=
  ⟨[⟨1, some "Checking", "100"⟩], [⟨1, some "Food"⟩],
   [⟨1, some 1, none, "2017-01-25", none, "101", none, none⟩,
    ⟨2, some 1, none, "2017-01-28", none, "46.23", none, none⟩],
   [⟨1, some 1, some 1, "60"⟩, ⟨2, some 2, some 1, "40"⟩], [], []⟩

/-- A database with two saved budgets (years 2018 and 2019), each with
one budget value. -/
def st6 : DBState :=
  ⟨[], [⟨1, some "Food"⟩], [], [],
   [⟨1, none, "2018"⟩, ⟨2, none, "2019"⟩],
   [⟨1, some 1, some 1, "15"⟩, ⟨2, some 2, some 1, "25"⟩]⟩

/-- A minimal constructed transaction for exercising `update_values`. -/
def txn9 : Transaction := ⟨acc1, ⟨100, 0⟩, ⟨2018, 1, 1⟩, none, [], none, none, none, none⟩

/-- Claim C1: on the code of `src/pft.py` the claimed splits validation
does not exist — `Transaction` construction succeeds with zero category
splits and with a single split of nonzero sum (only the
abs-total-exceeds-amount check is performed), where the claim requires
an `InvalidTransactionError`. -/
theorem c1_transaction_accepts_under_two_splits_and_nonzero_sum :
    (Transaction.init (some acc1) (.str "100") (.str "2018-01-01") none [] none
        none none none).map Transaction.categories = .ok [] ∧
    (Transaction.init (some acc1) (.str "100") (.str "2018-01-01") none
        [.pair cat1 ⟨60, 0⟩] none none none none).map Transaction.categories
      = .ok [(cat1, ⟨60, 0⟩)] := by
  decide

/-- Claim C2, counterexample: a ledger with starting balance 5 and one
+10 transaction yields first running balance 15, not the 10 the
start-at-zero claim demands. -/
theorem c2_running_balance_not_from_zero :
    ledgerCx.get_records.map LedgerRecord.balance = [⟨15, 0⟩] ∧
    ledgerCx.get_records.map (fun r => r.txn.amount) = [⟨10, 0⟩] ∧
    ((⟨15, 0⟩ : Dec) ≠ ⟨10, 0⟩) := by
  decide

/-- Claim C2 (amended): for every ledger, `get_records` returns the
transactions ordered by ascending `txn_date` with ties broken by
insertion order (stability: the records at each date are exactly the
ledger's transactions at that date, in insertion order), and the
running balances are the prefix sums of the returned amounts starting
from the ledger's *starting balance* (the claim's "starts at zero" is
the special case of a zero starting balance, as in the spec's example,
which is verified in the final conjunct). -/
theorem c2_get_records_sorted_stable_balances :
    (∀ l : Ledger,
      List.Sorted txnDateLe ((Ledger.get_records l).map LedgerRecord.txn) ∧
      (∀ q : PDate,
        ((Ledger.get_records l).map LedgerRecord.txn).filter (fun t => t.txn_date = q)
          = l.txns.filter (fun t => t.txn_date = q)) ∧
      (Ledger.get_records l).map LedgerRecord.balance
        = (List.scanl Dec.add l.starting_balance
            (((Ledger.get_records l).map LedgerRecord.txn).map Transaction.amount)).tail) ∧
    ledgerEx.get_records.map LedgerRecord.balance
      = [⟨10, 0⟩, ⟨-2, 0⟩, ⟨-1, 0⟩, ⟨3145, 2⟩] := by
  refine ⟨fun l => ⟨?_, fun q => ?_, ?_⟩, by decide⟩
  · rw [Ledger.get_records, records_loop_txn]
    exact List.sorted_insertionSort txnDateLe l.txns
  · rw [Ledger.get_records, records_loop_txn]
    exact filter_insertionSort_dateEq q l.txns
  · rw [Ledger.get_records, records_loop_txn, records_loop_balance]

/-- Claim C3, counterexample: three applications of the spec's clamped
`increment_month` take 2018-01-31 to 2018-04-28 (the day is clamped to
28 in February and never restored), while the claim also asserts
`increment_quarter 2018-01-31 = 2018-04-30`; both halves of the claim
cannot hold of one function. -/
theorem c3_quarter_not_triple_month :
    increment_month (increment_month (increment_month ⟨2018, 1, 31⟩)) = ⟨2018, 4, 28⟩ ∧
    increment_quarter ⟨2018, 1, 31⟩ = ⟨2018, 4, 30⟩ ∧
    ((⟨2018, 4, 28⟩ : PDate) ≠ ⟨2018, 4, 30⟩) := by
  decide

/-- Claim C3 (amended, spec-modelled): `increment_month` advances any
valid date by one calendar month and clamps the day-of-month to the
last valid day of the target month; `increment_quarter` advances three
calendar months with a single clamp to the target month (it is *not*
three applications of the clamped `increment_month` at month-end days);
the spec's examples hold: `increment_month 2018-01-31 = 2018-02-28`,
`increment_month 2018-03-31 = 2018-04-30`,
`increment_quarter 2018-01-31 = 2018-04-30`,
`increment_quarter 2018-11-30 = 2019-02-28`. -/
theorem c3_increment_month_quarter_clamp :
    (∀ d : PDate, isValidDate d = true →
      (increment_month d).year * 12 + ((increment_month d).month - 1)
          = d.year * 12 + (d.month - 1) + 1 ∧
      (increment_month d).day
          = min d.day (daysInMonth (increment_month d).year (increment_month d).month)) ∧
    (∀ d : PDate, isValidDate d = true →
      (increment_quarter d).year * 12 + ((increment_quarter d).month - 1)
          = d.year * 12 + (d.month - 1) + 3 ∧
      (increment_quarter d).day
          = min d.day (daysInMonth (increment_quarter d).year (increment_quarter d).month)) ∧
    increment_month ⟨2018, 1, 31⟩ = ⟨2018, 2, 28⟩ ∧
    increment_month ⟨2018, 3, 31⟩ = ⟨2018, 4, 30⟩ ∧
    increment_quarter ⟨2018, 1, 31⟩ = ⟨2018, 4, 30⟩ ∧
    increment_quarter ⟨2018, 11, 30⟩ = ⟨2019, 2, 28⟩ := by
  refine ⟨fun d h => ?_, fun d h => ?_, by decide, by decide, by decide, by decide⟩
  · obtain ⟨h1, h2, -⟩ := increment_month_spec d h
    exact ⟨h1, h2⟩
  · obtain ⟨h1, h2, -⟩ := increment_quarter_spec d h
    exact ⟨h1, h2⟩

/-- Witness for C3: the general clauses applied at the concrete valid
date 2018-01-31. -/
theorem c3_increment_month_quarter_clamp_witness :
    isValidDate ⟨2018, 1, 31⟩ = true ∧
    ((increment_month ⟨2018, 1, 31⟩).year * 12 + ((increment_month ⟨2018, 1, 31⟩).month - 1)
        = 2018 * 12 + (1 - 1) + 1 ∧
      (increment_month ⟨2018, 1, 31⟩).day = min 31
        (daysInMonth (increment_month ⟨2018, 1, 31⟩).year (increment_month ⟨2018, 1, 31⟩).month)) ∧
    ((increment_quarter ⟨2018, 1, 31⟩).year * 12 + ((increment_quarter ⟨2018, 1, 31⟩).month - 1)
        = 2018 * 12 + (1 - 1) + 3 ∧
      (increment_quarter ⟨2018, 1, 31⟩).day = min 31
        (daysInMonth (increment_quarter ⟨2018, 1, 31⟩).year (increment_quarter ⟨2018, 1, 31⟩).month)) :=
  ⟨by decide, c3_increment_month_quarter_clamp.1 ⟨2018, 1, 31⟩ (by decide),
    c3_increment_month_quarter_clamp.2.1 ⟨2018, 1, 31⟩ (by decide)⟩

/-- Claim C4, counterexample: the zero-amount transaction `txn0` is
constructible (amount passed as the numeric string `"0"`) and saves
successfully, but reloading it by its assigned id fails — the reload
path re-runs `_check_amount` on `Decimal('0')`, which is falsy. -/
theorem c4_zero_amount_reload_fails :
    Transaction.init (some acc1) (.str "0") (.str "2018-01-25") none [] none none none none
      = .ok txn0 ∧
    SQLiteStorage.load_txn (SQLiteStorage.save_txn st4 txn0).1
        (SQLiteStorage.save_txn st4 txn0).2.id
      = .error (.invalidTransaction "transaction must have an amount") := by
  decide

/-- Witness for C4: the round trip instantiated at the concrete store
`st4` and transaction `txn4`. -/
theorem c4_save_load_round_trip_witness :
    ∃ t : Transaction,
      SQLiteStorage.load_txn (SQLiteStorage.save_txn st4 txn4).1
          (SQLiteStorage.save_txn st4 txn4).2.id = .ok t ∧
      t.amount = txn4.amount ∧ t.txn_date = txn4.txn_date ∧ t.txn_type = txn4.txn_type ∧
      t.payee = txn4.payee ∧ t.description = txn4.description ∧ t.status = txn4.status ∧
      t.categories = txn4.categories :=
  c4_save_load_round_trip st4 txn4 1 ⟨1, some "Checking", "100"⟩ ⟨100, 0⟩ (by decide)
    (by decide) (by decide) (by decide) (by decide) (by decide) (by decide) (by decide)
    (fun p hp => by
      simp only [txn4, List.mem_singleton] at hp
      subst hp
      exact ⟨1, rfl, by decide⟩)
    (by decide)

/-- Claim C5: `delete_txn` removes only the `transactions` row — the
deleted transaction's `txn_categories` rows remain in storage (other
transactions' rows are indeed untouched, because nothing in
`txn_categories` is touched at all). -/
theorem c5_delete_txn_leaves_split_rows :
    (SQLiteStorage.delete_txn st5 1).transactions.map TxnRow.id = [2] ∧
    (SQLiteStorage.delete_txn st5 1).txn_categories = st5.txn_categories ∧
    ((SQLiteStorage.delete_txn st5 1).txn_categories.filter fun r => r.txn_id = some 1)
      = [⟨1, some 1, some 1, "60"⟩] := by
  decide

/-- Claim C6: with two stored budgets (years 2018 and 2019),
`get_budgets` returns the budget of the *first* id twice — looking up
budget 2 directly yields year 2019, but the all-budgets query never
does. -/
theorem c6_get_budgets_repeats_first_budget :
    (SQLiteStorage.get_budgets st6).map (List.map Budget.year)
      = some [.int 2018, .int 2018] ∧
    (SQLiteStorage.get_budget st6 2).map Budget.year = some (.int 2019) := by
  decide

/-- Claim C7: `Budget` construction with only a year fails with
`BudgetError` (category info is also mandatory, and there are no
`start_date`/`end_date` parameters or fields at all); with neither year
nor dates it fails as the claim says. -/
theorem c7_budget_requires_category_info :
    Budget.init (.int 2018) none none
      = .error (.budgetError "must pass in category info to Budget") ∧
    Budget.init .noneVal (some [(cat1, ⟨15, 0⟩)]) none
      = .error (.budgetError "must pass in year to Budget") := by
  decide

/-- Claim C8: `_check_txn_date` keeps a date value and parses the ISO
string, but the US string `3/18/2018` is rejected with
`invalid txn_date` (splitting on `'-'` yields one part and the unpack
raises), where the claim requires it to parse to 2018-03-18. -/
theorem c8_txn_date_us_format_rejected :
    Transaction.check_txn_date (.date ⟨2018, 3, 18⟩) = .ok ⟨2018, 3, 18⟩ ∧
    Transaction.check_txn_date (.str "2018-03-18") = .ok ⟨2018, 3, 18⟩ ∧
    Transaction.check_txn_date (.str "3/18/2018")
      = .error (.invalidTransaction "invalid txn_date") := by
  decide

/-- Claim C9: the status argument is stored verbatim by both the
constructor and `update_values` — `'d'` is accepted rather than
rejected, `'c'` is not uppercased, and the empty string is stored as
the empty string rather than as absent. -/
theorem c9_status_stored_verbatim :
    (Transaction.init (some acc1) (.str "100") (.str "2018-01-01") none [] none none
        (some "d") none).map Transaction.status = .ok (some "d") ∧
    (Transaction.init (some acc1) (.str "100") (.str "2018-01-01") none [] none none
        (some "c") none).map Transaction.status = .ok (some "c") ∧
    (Transaction.init (some acc1) (.str "100") (.str "2018-01-01") none [] none none
        (some "") none).map Transaction.status = .ok (some "") ∧
    (txn9.update_status (some "d")).status = some "d" := by
  decide

/-- Claim C10: with a valid account, txn_date and no categories,
construction with amount `0 : int` or `Decimal('0')` fails with
`InvalidTransactionError` ("transaction must have an amount"), while
the numeric string `'0'` is accepted and yields amount `Decimal('0')`. -/
theorem c10_zero_amount_input_asymmetry :
    Transaction.init (some acc1) (.int 0) (.str "2018-01-01") none [] none none none none
      = .error (.invalidTransaction "transaction must have an amount") ∧
    Transaction.init (some acc1) (.dec ⟨0, 0⟩) (.str "2018-01-01") none [] none none none none
      = .error (.invalidTransaction "transaction must have an amount") ∧
    (Transaction.init (some acc1) (.str "0") (.str "2018-01-01") none [] none none none
        none).map Transaction.amount = .ok ⟨0, 0⟩ := by
  decide
